import Mathlib

/-!
A shallow embedding of the `Database` class of `src/lib/json-db.ts`
(Kyvrixon/json-db) and a verification of its specification against it.
The embedding covers the filter-matching engine (`matchesFilter`,
`matchesDocument`), the storage operations (`read`, `readAll`, `write`,
`delete`, `count`) over an explicit filesystem state, and the in-process
lock registry (`acquireLock`).
-/

namespace JsonDB

/-- JSON-like runtime values. Numbers are modeled as integers (no claim
depends on floating-point behavior); the JavaScript `undefined` is
represented as `none` at use sites, which work with `Option JValue`. -/
inductive JValue where
  | null
  | bool (b : Bool)
  | num (n : Int)
  | str (s : String)
  | arr (elems : List JValue)
  | obj (fields : List (String × JValue))

/-- JavaScript strict equality `===` between a document value and a filter
operand: structural on primitives; arrays and objects compare by object
reference, and a value parsed from disk is never the same object as a
literal inside a filter, so composite values are never strictly equal in
the comparisons the engine performs. -/
def strictEqV : JValue → JValue → Bool
  | .null, .null => true
  | .bool a, .bool b => a == b
  | .num a, .num b => a == b
  | .str a, .str b => a == b
  | _, _ => false

/-- strict equality lifted to possibly-`undefined` operands. -/
def strictEq : Option JValue → Option JValue → Bool
  | none, none => true
  | some a, some b => strictEqV a b
  | _, _ => false

/-- JavaScript `<` restricted to the homogeneous cases the engine
exercises (number/number and string/string); mixed-type coercing
comparisons are modeled as false. -/
def jsLtV : JValue → JValue → Bool
  | .num a, .num b => decide (a < b)
  | .str a, .str b => decide (a < b)
  | _, _ => false

/-- JavaScript `<=` restricted to number/number and string/string. -/
def jsLeV : JValue → JValue → Bool
  | .num a, .num b => decide (a ≤ b)
  | .str a, .str b => decide (a ≤ b)
  | _, _ => false

/-- `value > x` with a possibly-`undefined` left operand
(`undefined` comparisons are always false). -/
def jsGt (value : Option JValue) (x : JValue) : Bool :=
  match value with
  | some v => jsLtV x v
  | none => false

/-- `value >= x` with a possibly-`undefined` left operand. -/
def jsGe (value : Option JValue) (x : JValue) : Bool :=
  match value with
  | some v => jsLeV x v
  | none => false

/-- `value < x` with a possibly-`undefined` left operand. -/
def jsLt (value : Option JValue) (x : JValue) : Bool :=
  match value with
  | some v => jsLtV v x
  | none => false

/-- `value <= x` with a possibly-`undefined` left operand. -/
def jsLe (value : Option JValue) (x : JValue) : Bool :=
  match value with
  | some v => jsLeV v x
  | none => false

/-- `Array.prototype.includes` with strict-equality element comparison. -/
def listIncludesV (l : List JValue) (x : JValue) : Bool :=
  l.any (fun o => strictEqV o x)

/-- the `$exists` test `value !== undefined && value !== null`. -/
def existsCheck : Option JValue → Bool
  | none => false
  | some .null => false
  | some _ => true

/-- The `QueryOperators` interface: one optional operand per operator,
`none` standing for an absent (or `undefined`) operand. `regexOp` models
a `RegExp` object as its string test function. Field names drop the `$`
prefix of the source; `inOp`, `notInOp`, `existsOp`, `regexOp`,
`arraySizeOp` additionally avoid Lean keywords. -/
structure QueryOperators where
  equals : Option JValue := none
  notEquals : Option JValue := none
  greaterThan : Option JValue := none
  greaterThanOrEqual : Option JValue := none
  lessThan : Option JValue := none
  lessThanOrEqual : Option JValue := none
  inOp : Option (List JValue) := none
  notInOp : Option (List JValue) := none
  existsOp : Option Bool := none
  regexOp : Option (String → Bool) := none
  arraySizeOp : Option Int := none

/-- the guard `filter.$op !== undefined && filter.$op !== null` placed on
the four ordering operators: a `null` operand behaves like an absent
one (the check is skipped). -/
def ordGuard : Option JValue → Option JValue
  | some .null => none
  | o => o

/-- the `$in` test: for array fields, some element of the field occurs
in the operand array; for other fields, the field's value occurs in the
operand array (an `undefined` field occurs in no operand array). -/
def inTest (l : List JValue) (value : Option JValue) : Bool :=
  match value with
  | some (.arr items) => items.any (fun item => listIncludesV l item)
  | some w => listIncludesV l w
  | none => false

/-- the `$notIn` test: the negation of each branch of the `$in` test. -/
def notInTest (l : List JValue) (value : Option JValue) : Bool :=
  match value with
  | some (.arr items) => !(items.any (fun item => listIncludesV l item))
  | some w => !(listIncludesV l w)
  | none => true

/-- `matchesFilter(value, filter)` of `src/lib/json-db.ts` (lines
387-420): a cascade of early returns, one per operator, checked in
source order; the first operator whose guard applies decides the
result, and a predicate in which no operator's guard applies returns
`true`. The cascade is written here from the last check backwards so
that each `let` is the continuation reached when the preceding check
falls through. -/
def matchesFilter (value : Option JValue) (q : QueryOperators) : Bool :=
  let stepArraySize : Bool :=
    match q.arraySizeOp, value with
    | some n, some (.arr xs) => ((xs.length : Int) == n)
    | _, _ => true
  let stepRegex : Bool :=
    match q.regexOp, value with
    | some r, some (.str s) => r s
    | _, _ => stepArraySize
  let stepExists : Bool :=
    match q.existsOp with
    | some b => existsCheck value == b
    | none => stepRegex
  let stepNotIn : Bool :=
    match q.notInOp with
    | some l => notInTest l value
    | none => stepExists
  let stepIn : Bool :=
    match q.inOp with
    | some l => inTest l value
    | none => stepNotIn
  let stepLte : Bool :=
    match ordGuard q.lessThanOrEqual with
    | some x => jsLe value x
    | none => stepIn
  let stepLt : Bool :=
    match ordGuard q.lessThan with
    | some x => jsLt value x
    | none => stepLte
  let stepGte : Bool :=
    match ordGuard q.greaterThanOrEqual with
    | some x => jsGe value x
    | none => stepLt
  let stepGt : Bool :=
    match ordGuard q.greaterThan with
    | some x => jsGt value x
    | none => stepGte
  match q.equals with
  | some x => strictEq value (some x)
  | none =>
    match q.notEquals with
    | some x => !(strictEq value (some x))
    | none => stepGt

/-- A field condition inside a filter object: `ops` is the branch
`typeof value === 'object' && value !== null && !Array.isArray(value)`
of `matchesDocument` (the value is an operator set), `lit` the other
branch (a bare literal: scalar, `null`, array, or `undefined`). -/
inductive FieldCond where
  | ops (q : QueryOperators)
  | lit (v : Option JValue)

/-- the `DatabaseFilter` object: optional `$and`/`$or`/`$not` members,
plus the remaining (non-`$`) field predicates in insertion order.
`some []` models a present-but-empty array, which is truthy in
JavaScript. -/
inductive DatabaseFilter where
  | mk (andOp orOp : Option (List DatabaseFilter)) (notOp : Option DatabaseFilter)
      (fields : List (String × FieldCond))

/-- property access `(document as any)[key]`: field lookup on object
documents, `none` (undefined) on everything else. -/
def fieldGet (doc : JValue) (key : String) : Option JValue :=
  match doc with
  | .obj fields => List.lookup key fields
  | _ => none

/-- the field-predicate loop of `matchesDocument`: each non-`$` key must
match (an operator set through `matchesFilter`, a bare literal through
strict equality). -/
def fieldsMatch (doc : JValue) : List (String × FieldCond) → Bool
  | [] => true
  | (key, cond) :: rest =>
    match cond with
    | .ops q => matchesFilter (fieldGet doc key) q && fieldsMatch doc rest
    | .lit v => strictEq (fieldGet doc key) v && fieldsMatch doc rest

mutual

/-- `matchesDocument(document, filter)` of `src/lib/json-db.ts` (lines
425-457): a present (truthy) `$and` returns immediately with the
conjunction of its sub-filters, else a present `$or` with the
disjunction, else a present `$not` with the negation; only a filter with
none of the three logical members evaluates its field predicates. -/
def matchesDocument (doc : JValue) : DatabaseFilter → Bool
  | .mk (some l) _ _ _ => allMatch doc l
  | .mk none (some l) _ _ => anyMatch doc l
  | .mk none none (some f) _ => !matchesDocument doc f
  | .mk none none none fields => fieldsMatch doc fields

/-- `Array.prototype.every` over sub-filters. -/
def allMatch (doc : JValue) : List DatabaseFilter → Bool
  | [] => true
  | f :: rest => matchesDocument doc f && allMatch doc rest

/-- `Array.prototype.some` over sub-filters. -/
def anyMatch (doc : JValue) : List DatabaseFilter → Bool
  | [] => false
  | f :: rest => matchesDocument doc f || anyMatch doc rest

end

/-- the content stored in one file, as seen through `JSON.parse`:
either well-formed JSON (always the case for files produced by
`JSON.stringify`) or malformed text on which `JSON.parse` throws. -/
inductive JContent where
  | wellFormed (v : JValue)
  | malformed

/-- the filesystem visible to the store: files keyed by absolute path,
plus the set of existing directories. `fs.access` succeeds exactly on
recorded paths. -/
structure FileSystem where
  files : List (String × JContent)
  dirs : List String

/-- the mutable state of a `Database` instance: the filesystem and the
in-process `lockedFiles` set. -/
structure DBState where
  fs : FileSystem
  lockedFiles : List String

/-- the errors a storage operation can surface: the lock-timeout `Error`
of `acquireLock`, the `SyntaxError` of `JSON.parse` on malformed
content, and the `ZodError` of `schema.parse`. -/
inductive DBError where
  | lockTimeout (file : String)
  | parseError
  | validationError (msg : String)

/-- an external Zod schema: validation either produces the (possibly
transformed) value or fails with a message. -/
def Validator : Type := JValue → Except String JValue

/-- the resolved `basePath` of the store instance. -/
def basePath : String := "/db"

/-- `path.join(dirPath, file)` for the single-level joins the store
performs. -/
def pathJoin (d f : String) : String := d ++ "/" ++ f

/-- `getCollectionDir`: `path.join(this.basePath, collection)`. -/
def getCollectionDir (c : String) : String := pathJoin basePath c

/-- the document file path `path.join(dirPath, id + '.json')`. -/
def filePathOf (c i : String) : String := pathJoin (getCollectionDir c) (i ++ ".json")

/-- `file.endsWith('.json')`. -/
def hasJsonExt (f : String) : Bool :=
  decide (f.toList.drop (f.toList.length - 5) = ".json".toList)

/-- `path.basename(file, '.json')` on a name already known to end in
`.json`: the name with its last five characters removed. -/
def basenameNoJson (f : String) : String :=
  String.mk (f.toList.take (f.toList.length - 5))

/-- the name of `p` relative to directory `d`, when `p` is a direct
child of `d`: what `fs.readdir(d)` would list `p` as. -/
def childNameOf (d p : String) : Option String :=
  if p.toList.take (d.toList ++ ['/']).length = d.toList ++ ['/']
      ∧ (p.toList.drop (d.toList ++ ['/']).length).contains '/' = false
      ∧ (d.toList ++ ['/']).length < p.toList.length
  then some (String.mk (p.toList.drop (d.toList ++ ['/']).length))
  else none

/-- `(await fs.readdir(dirPath)).filter(f => f.endsWith('.json'))`: the
`.json` entries directly inside `dirPath`, in directory order. -/
def jsonEntries (st : DBState) (dirPath : String) : List String :=
  st.fs.files.filterMap fun pc =>
    match childNameOf dirPath pc.1 with
    | some f => if hasJsonExt f then some f else none
    | none => none

/-- replace the binding of `k` (or append it) in an association list:
the effect of writing a file at path `k`. -/
def setAssoc : List (String × JContent) → String → JContent → List (String × JContent)
  | [], k, v => [(k, v)]
  | (k', v') :: rest, k, v =>
    if k' = k then (k, v) :: rest else (k', v') :: setAssoc rest k v

/-- drop every binding of `k`: the effect of `fs.unlink` / the removal
half of `fs.rename`. -/
def removeKey (l : List (String × JContent)) (k : String) : List (String × JContent) :=
  l.filter fun p => !(p.1 == k)

/-- `fs.writeFile(path, content)`. -/
def fsWriteFile (fs : FileSystem) (p : String) (c : JContent) : FileSystem :=
  { fs with files := setAssoc fs.files p c }

/-- `fs.rename(src, dst)`: move the content at `src` over `dst`. -/
def fsRename (fs : FileSystem) (src dst : String) : FileSystem :=
  match List.lookup src fs.files with
  | none => fs
  | some c => { fs with files := setAssoc (removeKey fs.files src) dst c }

/-- `fs.unlink(path)`. -/
def fsUnlink (fs : FileSystem) (p : String) : FileSystem :=
  { fs with files := removeKey fs.files p }

/-- `ensureDirectoryExists(dirPath)`: `fs.access` then `fs.mkdir` with
`recursive: true` when absent. -/
def ensureDirectoryExists (fs : FileSystem) (dirPath : String) : FileSystem :=
  if fs.dirs.contains dirPath then fs else { fs with dirs := dirPath :: fs.dirs }

/-- `maxAttempts` of `acquireLock`. -/
def maxAttempts : Nat := 100

/-- `lockDelay` of `acquireLock`, in milliseconds: the fixed pause
between two polls of the lock set. -/
def lockDelay : Nat := 10

/-- the retry loop of `acquireLock` (lines 133-147): `env i` is the
content of `this.lockedFiles` observed at the check with
`attempts = i` (other asynchronous tasks may add or remove entries
while this task sleeps between checks). On success the pair holds the
index of the successful check and the lock set after insertion; on
exhaustion the loop throws without touching the lock set. -/
def acquireLockAux (env : Nat → List String) (file : String) (attempts : Nat) :
    Except DBError (Nat × List String) :=
  if h : attempts < maxAttempts then
    if (env attempts).contains file then
      acquireLockAux env file (attempts + 1)
    else
      .ok (attempts, file :: env attempts)
  else
    .error (.lockTimeout file)
termination_by maxAttempts - attempts

/-- `acquireLock(file)`: a falsy (empty) file name returns at once
without locking anything; otherwise the retry loop runs from
`attempts = 0`. -/
def acquireLock (env : Nat → List String) (file : String) :
    Except DBError (Nat × List String) :=
  if file = "" then .ok (0, env 0) else acquireLockAux env file 0

/-- `acquireLock` as executed with no other task interleaving: the lock
set seen by every poll is the current one. -/
def acquireLockSeq (locked : List String) (file : String) : Except DBError (List String) :=
  match acquireLock (fun _ => locked) file with
  | .ok (_, l) => .ok l
  | .error e => .error e

/-- `releaseLock(file)`: unconditionally drop the entry. -/
def releaseLock (locked : List String) (file : String) : List String :=
  locked.erase file

/-- `writeJSONFileUnsafe(filePath, data)`: serialize to `filePath + ".tmp"`,
then atomically rename over `filePath`. `JSON.stringify` output is
always well-formed. -/
def writeJSONFileUnsafe (fs : FileSystem) (filePath : String) (data : JValue) : FileSystem :=
  fsRename (fsWriteFile fs (filePath ++ ".tmp") (.wellFormed data)) (filePath ++ ".tmp") filePath

/-- `writeJSONFile(filePath, data)`: acquire the per-file lock, write
unsafely, release in a `finally`. -/
def writeJSONFile (st : DBState) (filePath : String) (data : JValue) :
    DBState × Except DBError Unit :=
  match acquireLockSeq st.lockedFiles filePath with
  | .error e => (st, .error e)
  | .ok locked' =>
    ({ fs := writeJSONFileUnsafe st.fs filePath data,
       lockedFiles := releaseLock locked' filePath }, .ok ())

/-- `readJSONFile(filePath, schema)` (lines 160-172): a failed
`fs.access` returns `null`; `JSON.parse` throws on malformed content;
with a schema and `validateOnRead` enabled the parsed value goes
through the schema, otherwise it is returned unchecked. -/
def readJSONFile (st : DBState) (filePath : String) (schema : Option Validator)
    (validateOnRead : Bool) : Except DBError JValue :=
  match List.lookup filePath st.fs.files with
  | none => .ok .null
  | some .malformed => .error .parseError
  | some (.wellFormed v) =>
    match schema with
    | some s =>
      if validateOnRead then
        match s v with
        | .ok v' => .ok v'
        | .error msg => .error (.validationError msg)
      else .ok v
    | none => .ok v

/-- `read(collection, id, schema)` (lines 205-209). -/
def read (st : DBState) (c i : String) (schema : Option Validator)
    (validateOnRead : Bool) : Except DBError JValue :=
  readJSONFile st (filePathOf c i) schema validateOnRead

/-- `data !== null` as used by the `readAll` loop. -/
def isNull : JValue → Bool
  | .null => true
  | _ => false

/-- the loop of `readAll` over the listed `.json` entries: each entry is
read through `readJSONFile` (an exception aborts the whole loop) and
inserted under its basename when the value is not `null`. -/
def readAllGo (st : DBState) (dirPath : String) (schema : Option Validator)
    (validateOnRead : Bool) : List String → Except DBError (List (String × JValue))
  | [] => .ok []
  | f :: rest =>
    match readJSONFile st (pathJoin dirPath f) schema validateOnRead with
    | .error e => .error e
    | .ok data =>
      match readAllGo st dirPath schema validateOnRead rest with
      | .error e => .error e
      | .ok tail => .ok (if isNull data then tail else (basenameNoJson f, data) :: tail)

/-- `readAll(collection, schema)` (lines 214-229): an absent collection
directory yields the empty mapping, otherwise the `.json` entries are
read in directory order. -/
def readAll (st : DBState) (c : String) (schema : Option Validator)
    (validateOnRead : Bool) : Except DBError (List (String × JValue)) :=
  if st.fs.dirs.contains (getCollectionDir c) then
    readAllGo st (getCollectionDir c) schema validateOnRead
      (jsonEntries st (getCollectionDir c))
  else .ok []

/-- `write(collection, id, data, schema)` (lines 247-255): the target
directory is ensured to exist first, then the optional schema validates
the payload (a failure throws out of `write`), then the document is
written under the per-file lock. -/
def write (st : DBState) (c i : String) (data : JValue) (schema : Option Validator) :
    DBState × Except DBError Unit :=
  let st1 : DBState := { st with fs := ensureDirectoryExists st.fs (getCollectionDir c) }
  match schema with
  | some s =>
    match s data with
    | .error msg => (st1, .error (.validationError msg))
    | .ok _ => writeJSONFile st1 (filePathOf c i) data
  | none => writeJSONFile st1 (filePathOf c i) data

/-- `delete(collection, id)` (lines 275-290): a failed `fs.access`
returns `false` with no further effect; otherwise the file is unlinked
under the per-file lock and `true` is returned. -/
def delete (st : DBState) (c i : String) : DBState × Except DBError Bool :=
  match List.lookup (filePathOf c i) st.fs.files with
  | none => (st, .ok false)
  | some _ =>
    match acquireLockSeq st.lockedFiles (filePathOf c i) with
    | .error e => (st, .error e)
    | .ok locked' =>
      ({ fs := fsUnlink st.fs (filePathOf c i),
         lockedFiles := releaseLock locked' (filePathOf c i) }, .ok true)

/-- `count(collection)` (lines 327-335): `0` when the directory is
absent, otherwise the number of `.json` entries `fs.readdir` lists. -/
def count (st : DBState) (c : String) : Nat :=
  if st.fs.dirs.contains (getCollectionDir c) then
    (jsonEntries st (getCollectionDir c)).length
  else 0

/-- the value one listed entry contributes to the `readAll` mapping:
`none` when the file is unreadable or holds `null`. -/
def readEntry (st : DBState) (dirPath : String) (f : String) : Option (String × JValue) :=
  match List.lookup (pathJoin dirPath f) st.fs.files with
  | some (.wellFormed v) => if isNull v then none else some (basenameNoJson f, v)
  | _ => none

/-- `(readAll result).size` with errors counted as size `0`. -/
def okLength : Except DBError (List (String × JValue)) → Nat
  | .ok m => m.length
  | .error _ => 0

/-- whether a `readAll`-shaped result resolved rather than rejected. -/
def isOkRes : Except DBError (List (String × JValue)) → Bool
  | .ok _ => true
  | .error _ => false

/-- a schema on which every payload fails validation. -/
def failValidator : Validator := fun _ => .error "invalid"

/-- the pristine state: no files, no directories, no locks. -/
def st0 : DBState := ⟨⟨[], []⟩, []⟩

/-- a state whose `users` collection holds one readable document. -/
def stGood : DBState := ⟨⟨[("/db/users/1.json", .wellFormed (.num 5))], ["/db/users"]⟩, []⟩

/-- a state whose `users` collection holds one readable document and one
file with malformed JSON content. -/
def stMal : DBState :=
  ⟨⟨[("/db/users/a.json", .wellFormed (.obj [("name", .str "Alice")])),
     ("/db/users/b.json", .malformed)], ["/db/users"]⟩, []⟩

/-- a state whose `users` collection holds one file whose content is the
JSON literal `null`. -/
def stNull : DBState := ⟨⟨[("/db/users/1.json", .wellFormed .null)], ["/db/users"]⟩, []⟩

/-! ## Theorems -/

/-- C1 counterexample: the value `1` matches the predicate
`{$equals: 1, $notEquals: 1}` although its `$notEquals` operator, taken
alone, rejects that value — so the operators present on one field
predicate are not all required to hold, refuting the conjunctive
reading. -/
theorem c1_conjunctive_counterexample :
    matchesFilter (some (.num 1))
      { equals := some (.num 1), notEquals := some (.num 1) } = true
    ∧ matchesFilter (some (.num 1)) { notEquals := some (.num 1) } = false := by
  exact ⟨rfl, rfl⟩

/-- C1 (amended): `matchesFilter` returns on the first operator whose
guard applies, in source check order, and every later operator on the
predicate is ignored: one conjunct per operator position, each assuming
that every earlier guard failed and concluding that the predicate's
result is that operator's test alone, whatever the remaining operators
hold; the last conjunct shows that a predicate in which no operator's
guard applies matches. -/
theorem c1_first_operator_decides (v : Option JValue) (q : QueryOperators) :
    (∀ x, q.equals = some x →
      matchesFilter v q = strictEq v (some x))
    ∧ (q.equals = none → ∀ x, q.notEquals = some x →
      matchesFilter v q = !strictEq v (some x))
    ∧ (q.equals = none → q.notEquals = none →
       ∀ x, ordGuard q.greaterThan = some x →
      matchesFilter v q = jsGt v x)
    ∧ (q.equals = none → q.notEquals = none → ordGuard q.greaterThan = none →
       ∀ x, ordGuard q.greaterThanOrEqual = some x →
      matchesFilter v q = jsGe v x)
    ∧ (q.equals = none → q.notEquals = none → ordGuard q.greaterThan = none →
       ordGuard q.greaterThanOrEqual = none →
       ∀ x, ordGuard q.lessThan = some x →
      matchesFilter v q = jsLt v x)
    ∧ (q.equals = none → q.notEquals = none → ordGuard q.greaterThan = none →
       ordGuard q.greaterThanOrEqual = none → ordGuard q.lessThan = none →
       ∀ x, ordGuard q.lessThanOrEqual = some x →
      matchesFilter v q = jsLe v x)
    ∧ (q.equals = none → q.notEquals = none → ordGuard q.greaterThan = none →
       ordGuard q.greaterThanOrEqual = none → ordGuard q.lessThan = none →
       ordGuard q.lessThanOrEqual = none →
       ∀ l, q.inOp = some l →
      matchesFilter v q = inTest l v)
    ∧ (q.equals = none → q.notEquals = none → ordGuard q.greaterThan = none →
       ordGuard q.greaterThanOrEqual = none → ordGuard q.lessThan = none →
       ordGuard q.lessThanOrEqual = none → q.inOp = none →
       ∀ l, q.notInOp = some l →
      matchesFilter v q = notInTest l v)
    ∧ (q.equals = none → q.notEquals = none → ordGuard q.greaterThan = none →
       ordGuard q.greaterThanOrEqual = none → ordGuard q.lessThan = none →
       ordGuard q.lessThanOrEqual = none → q.inOp = none → q.notInOp = none →
       ∀ b, q.existsOp = some b →
      matchesFilter v q = (existsCheck v == b))
    ∧ (q.equals = none → q.notEquals = none → ordGuard q.greaterThan = none →
       ordGuard q.greaterThanOrEqual = none → ordGuard q.lessThan = none →
       ordGuard q.lessThanOrEqual = none → q.inOp = none → q.notInOp = none →
       q.existsOp = none →
       ∀ r s, q.regexOp = some r → v = some (.str s) →
      matchesFilter v q = r s)
    ∧ (q.equals = none → q.notEquals = none → ordGuard q.greaterThan = none →
       ordGuard q.greaterThanOrEqual = none → ordGuard q.lessThan = none →
       ordGuard q.lessThanOrEqual = none → q.inOp = none → q.notInOp = none →
       q.existsOp = none →
       ∀ n xs, q.arraySizeOp = some n → v = some (.arr xs) →
      matchesFilter v q = ((xs.length : Int) == n))
    ∧ (q.equals = none → q.notEquals = none → ordGuard q.greaterThan = none →
       ordGuard q.greaterThanOrEqual = none → ordGuard q.lessThan = none →
       ordGuard q.lessThanOrEqual = none → q.inOp = none → q.notInOp = none →
       q.existsOp = none →
       (q.regexOp = none ∨ ∀ s, v ≠ some (.str s)) →
       (q.arraySizeOp = none ∨ ∀ xs, v ≠ some (.arr xs)) →
      matchesFilter v q = true) := by
  refine ⟨?_, ?_, ?_, ?_, ?_, ?_, ?_, ?_, ?_, ?_, ?_, ?_⟩
  · intro x hx
    simp only [matchesFilter, hx]
  · intro h1 x hx
    simp only [matchesFilter, h1, hx]
  · intro h1 h2 x hx
    simp only [matchesFilter, h1, h2, hx]
  · intro h1 h2 h3 x hx
    simp only [matchesFilter, h1, h2, h3, hx]
  · intro h1 h2 h3 h4 x hx
    simp only [matchesFilter, h1, h2, h3, h4, hx]
  · intro h1 h2 h3 h4 h5 x hx
    simp only [matchesFilter, h1, h2, h3, h4, h5, hx]
  · intro h1 h2 h3 h4 h5 h6 l hl
    simp only [matchesFilter, h1, h2, h3, h4, h5, h6, hl]
  · intro h1 h2 h3 h4 h5 h6 h7 l hl
    simp only [matchesFilter, h1, h2, h3, h4, h5, h6, h7, hl]
  · intro h1 h2 h3 h4 h5 h6 h7 h8 b hb
    simp only [matchesFilter, h1, h2, h3, h4, h5, h6, h7, h8, hb]
  · intro h1 h2 h3 h4 h5 h6 h7 h8 h9 r s hr hv
    simp only [matchesFilter, h1, h2, h3, h4, h5, h6, h7, h8, h9, hr, hv]
  · intro h1 h2 h3 h4 h5 h6 h7 h8 h9 n xs hn hv
    subst hv
    cases hqr : q.regexOp <;>
      simp only [matchesFilter, h1, h2, h3, h4, h5, h6, h7, h8, h9, hn, hqr]
  · intro h1 h2 h3 h4 h5 h6 h7 h8 h9 hre har
    simp only [matchesFilter, h1, h2, h3, h4, h5, h6, h7, h8, h9]
    have hreN : ∀ s : String, v = some (.str s) → q.regexOp = none := by
      intro s hv
      rcases hre with hre | hre
      · exact hre
      · exact absurd hv (hre s)
    have harN : ∀ xs : List JValue, v = some (.arr xs) → q.arraySizeOp = none := by
      intro xs hv
      rcases har with har | har
      · exact har
      · exact absurd hv (har xs)
    cases hqr : q.regexOp with
    | none =>
      cases v with
      | none => cases hqa : q.arraySizeOp <;> rfl
      | some w =>
        cases w with
        | arr xs =>
          cases hqa : q.arraySizeOp with
          | none => rfl
          | some n => rw [harN xs rfl] at hqa; exact Option.noConfusion hqa
        | null => cases hqa : q.arraySizeOp <;> rfl
        | bool b => cases hqa : q.arraySizeOp <;> rfl
        | num m => cases hqa : q.arraySizeOp <;> rfl
        | str s => cases hqa : q.arraySizeOp <;> rfl
        | obj fields => cases hqa : q.arraySizeOp <;> rfl
    | some r =>
      cases v with
      | none => cases hqa : q.arraySizeOp <;> rfl
      | some w =>
        cases w with
        | str s => rw [hreN s rfl] at hqr; exact Option.noConfusion hqr
        | arr xs =>
          cases hqa : q.arraySizeOp with
          | none => rfl
          | some n => rw [harN xs rfl] at hqa; exact Option.noConfusion hqa
        | null => cases hqa : q.arraySizeOp <;> rfl
        | bool b => cases hqa : q.arraySizeOp <;> rfl
        | num m => cases hqa : q.arraySizeOp <;> rfl
        | obj fields => cases hqa : q.arraySizeOp <;> rfl

/-- C1 witness: the amended theorem exercised at a predicate where
`$equals` decides and `$notEquals` is ignored, at one where `$exists`
decides after all earlier operators are absent and `$arraySize` is
ignored, and at one where no operator's guard applies and the predicate
matches. -/
theorem c1_first_operator_decides_witness :
    matchesFilter (some (.num 1))
      { equals := some (.num 1), notEquals := some (.num 1) }
      = strictEq (some (.num 1)) (some (.num 1))
    ∧ matchesFilter (some (.num 2)) { existsOp := some true, arraySizeOp := some 5 }
      = (existsCheck (some (.num 2)) == true)
    ∧ matchesFilter (some (.num 3)) { arraySizeOp := some 5 } = true := by
  refine ⟨?_, ?_, ?_⟩
  · exact (c1_first_operator_decides (some (.num 1))
      { equals := some (.num 1), notEquals := some (.num 1) }).1 (.num 1) rfl
  · exact (c1_first_operator_decides (some (.num 2))
      { existsOp := some true, arraySizeOp := some 5 }).2.2.2.2.2.2.2.2.1
      rfl rfl rfl rfl rfl rfl rfl rfl true rfl
  · exact (c1_first_operator_decides (some (.num 3))
      { arraySizeOp := some 5 }).2.2.2.2.2.2.2.2.2.2.2
      rfl rfl rfl rfl rfl rfl rfl rfl rfl (Or.inl rfl)
      (Or.inr (fun xs h => by simp at h))

/-- C2 counterexample: the document `{a: 1}` matches the filter
`{$and: [], a: 2}` although its sibling field predicate `a: 2`, taken
alone, rejects the document — the sibling field predicates of a logical
operator are dropped, not conjoined. -/
theorem c2_sibling_counterexample :
    matchesDocument (.obj [("a", .num 1)])
      (.mk (some []) none none [("a", .lit (some (.num 2)))]) = true
    ∧ matchesDocument (.obj [("a", .num 1)])
      (.mk none none none [("a", .lit (some (.num 2)))]) = false := by
  exact ⟨rfl, rfl⟩

/-- C2 (amended): when a logical operator is present in a filter object
it alone decides the result — `$and` first, else `$or`, else `$not` —
and the sibling field predicates (and lower-priority logical members)
are ignored. -/
theorem c2_logical_operator_precedence (doc : JValue) :
    (∀ (l : List DatabaseFilter) (orC : Option (List DatabaseFilter))
       (notC : Option DatabaseFilter) (fields : List (String × FieldCond)),
      matchesDocument doc (.mk (some l) orC notC fields) = allMatch doc l)
    ∧ (∀ (l : List DatabaseFilter) (notC : Option DatabaseFilter)
         (fields : List (String × FieldCond)),
        matchesDocument doc (.mk none (some l) notC fields) = anyMatch doc l)
    ∧ (∀ (f : DatabaseFilter) (fields : List (String × FieldCond)),
        matchesDocument doc (.mk none none (some f) fields) = !matchesDocument doc f) := by
  refine ⟨fun _ _ _ _ => rfl, fun _ _ _ => rfl, fun _ _ => rfl⟩

/-- C3 counterexample: filtering by `{tags: {$arraySize: 2}}`, the
document with `tags: ["a"]` is rejected and the one with
`tags: ["a","b"]` accepted, but the document with absent `tags` is
ALSO accepted (the operator's array guard fails and the predicate falls
through to `true`), contradicting the claim that a non-array field
never matches. -/
theorem c3_arraySize_counterexample :
    matchesDocument (.obj [("tags", .arr [.str "a"])])
      (.mk none none none [("tags", .ops { arraySizeOp := some 2 })]) = false
    ∧ matchesDocument (.obj [("tags", .arr [.str "a", .str "b"])])
      (.mk none none none [("tags", .ops { arraySizeOp := some 2 })]) = true
    ∧ matchesDocument (.obj [("name", .str "c")])
      (.mk none none none [("tags", .ops { arraySizeOp := some 2 })]) = true := by
  exact ⟨rfl, rfl, rfl⟩

/-- C3 (amended): a `$arraySize`-only predicate compares the length when
the field's value is an array, but on any non-array (or absent) value
the operator is skipped and the predicate vacuously matches. -/
theorem c3_arraySize_semantics (n : Int) :
    (∀ xs : List JValue,
      matchesFilter (some (.arr xs)) { arraySizeOp := some n }
        = ((xs.length : Int) == n))
    ∧ (∀ v : Option JValue, (∀ ys : List JValue, v ≠ some (.arr ys)) →
        matchesFilter v { arraySizeOp := some n } = true) := by
  constructor
  · intro xs; rfl
  · intro v hv
    match v with
    | none => rfl
    | some .null => rfl
    | some (.bool b) => rfl
    | some (.num m) => rfl
    | some (.str s) => rfl
    | some (.obj fs) => rfl
    | some (.arr ys) => exact absurd rfl (hv ys)

/-- C3 witness: the amended theorem applied to a two-element array and
to a non-array string value. -/
theorem c3_arraySize_semantics_witness :
    matchesFilter (some (.arr [.str "a", .str "b"])) { arraySizeOp := some 2 } = true
    ∧ matchesFilter (some (.str "c")) { arraySizeOp := some 2 } = true := by
  constructor
  · rw [(c3_arraySize_semantics 2).1]; decide
  · exact (c3_arraySize_semantics 2).2 (some (.str "c")) (fun ys h => by simp at h)

/-- C7: a filter whose `$and` member is the (truthy) empty array matches
every document, whatever its other members hold, and a filter whose
`$or` member is the empty array (with no `$and`) matches no document. -/
theorem c7_empty_and_or (doc : JValue) :
    (∀ (orC : Option (List DatabaseFilter)) (notC : Option DatabaseFilter)
       (fields : List (String × FieldCond)),
      matchesDocument doc (.mk (some []) orC notC fields) = true)
    ∧ (∀ (notC : Option DatabaseFilter) (fields : List (String × FieldCond)),
        matchesDocument doc (.mk none (some []) notC fields) = false) := by
  refine ⟨fun _ _ _ => rfl, fun _ _ => rfl⟩

/-- C4 counterexample: in the pristine state, a write whose payload
fails validation surfaces the validation error, yet the collection
directory has been created — `ensureDirectoryExists` runs before
`schema.parse`, so a failing validation is not free of I/O. -/
theorem c4_write_validation_counterexample :
    (write st0 "users" "1" (.num 0) (some failValidator)).2
      = .error (.validationError "invalid")
    ∧ (write st0 "users" "1" (.num 0) (some failValidator)).1.fs.dirs
      = ["/db/users"] := by
  exact ⟨rfl, rfl⟩

/-- C4 (amended): when validation fails, `write` surfaces the validation
error with no file written and the lock set untouched, but only after
the collection directory has been ensured to exist (created when
absent). -/
theorem c4_write_validation_no_file_io (st : DBState) (c i : String) (data : JValue)
    (s : Validator) (msg : String) (h : s data = .error msg) :
    write st c i data (some s)
      = ({ st with fs := ensureDirectoryExists st.fs (getCollectionDir c) },
         .error (.validationError msg)) := by
  simp only [write, h]

/-- C4 witness: the amended theorem applied in the pristine state with
the always-failing validator. -/
theorem c4_write_validation_no_file_io_witness :
    write st0 "users" "1" (.num 0) (some failValidator)
      = ({ st0 with fs := ensureDirectoryExists st0.fs (getCollectionDir "users") },
         .error (.validationError "invalid")) :=
  c4_write_validation_no_file_io st0 "users" "1" (.num 0) failValidator "invalid" rfl

/-- C6: not-found conditions are not errors: `read` on a missing file
returns `null` without raising, and `delete` on a missing file returns
`false` without raising and without changing the state (so repeating it
any number of times keeps returning `false`). -/
theorem c6_not_found_not_error (st : DBState) (c i : String)
    (schema : Option Validator) (vor : Bool)
    (h : List.lookup (filePathOf c i) st.fs.files = none) :
    read st c i schema vor = .ok JValue.null
    ∧ delete st c i = (st, .ok false) := by
  constructor
  · simp only [read, readJSONFile, h]
  · simp only [delete, h]

/-- C6 witness: reading and deleting a nonexistent id in the pristine
state. -/
theorem c6_not_found_not_error_witness :
    read st0 "users" "ghost" none false = .ok JValue.null
    ∧ delete st0 "users" "ghost" = (st0, .ok false) :=
  c6_not_found_not_error st0 "users" "ghost" none false rfl

/-- the retry loop of `acquireLock`, started at any attempt index, fails
with the lock-timeout error when every remaining poll sees the path
held. -/
theorem acquireLockAux_timeout (env : Nat → List String) (file : String) :
    ∀ (n a : Nat), maxAttempts - a = n →
      (∀ i, a ≤ i → i < maxAttempts → (env i).contains file = true) →
      acquireLockAux env file a = .error (.lockTimeout file) := by
  intro n
  induction n with
  | zero =>
    intro a ha _
    unfold acquireLockAux
    have hge : ¬ a < maxAttempts := by omega
    simp [hge]
  | succ k ih =>
    intro a ha h
    unfold acquireLockAux
    have hlt : a < maxAttempts := by omega
    simp only [hlt, dif_pos, h a le_rfl hlt, if_true]
    exact ih (a + 1) (by omega) (fun i hi hlt' => h i (by omega) hlt')

/-- the retry loop of `acquireLock` succeeds at the first poll that sees
the path free, inserting the path into the observed lock set. -/
theorem acquireLockAux_success (env : Nat → List String) (file : String) :
    ∀ (n a j : Nat), j - a = n → a ≤ j → j < maxAttempts →
      (∀ i, a ≤ i → i < j → (env i).contains file = true) →
      (env j).contains file = false →
      acquireLockAux env file a = .ok (j, file :: env j) := by
  intro n
  induction n with
  | zero =>
    intro a j h0 haj hj hheld hfree
    have haeq : a = j := by omega
    subst haeq
    unfold acquireLockAux
    rw [dif_pos hj, if_neg (by simpa using hfree)]
  | succ k ih =>
    intro a j h0 haj hj hheld hfree
    have hla : a < j := by omega
    have hlt : a < maxAttempts := by omega
    unfold acquireLockAux
    simp only [hlt, dif_pos, hheld a le_rfl hla, if_true]
    exact ih (a + 1) j (by omega) (by omega) hj
      (fun i h1 h2 => hheld i (by omega) h2) hfree

/-- C9: lock acquisition is bounded: the loop makes at most
`maxAttempts = 100` polls separated by the fixed `lockDelay = 10`
milliseconds; it marks the path held at the first poll that finds it
free, and when all 100 polls find it held it fails with the lock-timeout
error naming the path, leaving the lock set unmodified. -/
theorem c9_acquireLock_bounded :
    maxAttempts = 100 ∧ lockDelay = 10
    ∧ ∀ (env : Nat → List String) (file : String), file ≠ "" →
        ((∀ i, i < maxAttempts → (env i).contains file = true) →
          acquireLock env file = .error (.lockTimeout file))
        ∧ (∀ j, j < maxAttempts → (∀ i, i < j → (env i).contains file = true) →
            (env j).contains file = false →
            acquireLock env file = .ok (j, file :: env j)) := by
  refine ⟨rfl, rfl, fun env file hf => ⟨?_, ?_⟩⟩
  · intro h
    unfold acquireLock
    rw [if_neg hf]
    exact acquireLockAux_timeout env file maxAttempts 0 rfl (fun i _ hi => h i hi)
  · intro j hj hheld hfree
    unfold acquireLock
    rw [if_neg hf]
    exact acquireLockAux_success env file j 0 j rfl (Nat.zero_le j) hj
      (fun i _ h2 => hheld i h2) hfree

/-- C9 witness: the theorem applied to a permanently-held path (timeout
after the full budget) and to a free path (acquired at the first
poll). -/
theorem c9_acquireLock_bounded_witness :
    acquireLock (fun _ => ["/db/users/1.json"]) "/db/users/1.json"
      = .error (.lockTimeout "/db/users/1.json")
    ∧ acquireLock (fun _ => []) "/db/users/1.json"
      = .ok (0, ["/db/users/1.json"]) := by
  constructor
  · exact (c9_acquireLock_bounded.2.2 (fun _ => ["/db/users/1.json"])
      "/db/users/1.json" (by decide)).1 (fun i _ => by decide)
  · exact (c9_acquireLock_bounded.2.2 (fun _ => [])
      "/db/users/1.json" (by decide)).2 0 (by decide)
      (fun i h => absurd h (Nat.not_lt_zero i)) rfl

/-- the `readAll` loop resolves, with one mapping entry per listed file
that holds a non-`null` value, when no listed file has malformed
content. -/
theorem readAllGo_ok_of_no_malformed (st : DBState) (dirPath : String)
    (L : List String)
    (h : ∀ f ∈ L, List.lookup (pathJoin dirPath f) st.fs.files ≠ some JContent.malformed) :
    readAllGo st dirPath none false L = .ok (L.filterMap (readEntry st dirPath)) := by
  induction L with
  | nil => rfl
  | cons f rest ih =>
    have hrest : ∀ g ∈ rest,
        List.lookup (pathJoin dirPath g) st.fs.files ≠ some JContent.malformed :=
      fun g hg => h g (List.mem_cons_of_mem f hg)
    cases hl : List.lookup (pathJoin dirPath f) st.fs.files with
    | none =>
      simp only [readAllGo, readJSONFile, hl, ih hrest, List.filterMap_cons, readEntry]
      rfl
    | some c =>
      cases c with
      | malformed => exact absurd hl (h f (List.mem_cons_self f rest))
      | wellFormed v =>
        simp only [readAllGo, readJSONFile, hl, ih hrest, List.filterMap_cons, readEntry]
        cases hv : isNull v <;> simp [hv]

/-- the `readAll` loop rejects with the parse error as soon as some
listed file has malformed content. -/
theorem readAllGo_error_of_malformed (st : DBState) (dirPath : String)
    (L : List String)
    (h : ∃ f ∈ L, List.lookup (pathJoin dirPath f) st.fs.files = some JContent.malformed) :
    readAllGo st dirPath none false L = .error DBError.parseError := by
  induction L with
  | nil =>
    obtain ⟨f, hf, _⟩ := h
    exact absurd hf (List.not_mem_nil f)
  | cons g rest ih =>
    by_cases hg : List.lookup (pathJoin dirPath g) st.fs.files = some JContent.malformed
    · simp only [readAllGo, readJSONFile, hg]
    · obtain ⟨f, hf, hfm⟩ := h
      have hfr : f ∈ rest := by
        rcases List.mem_cons.mp hf with h1 | h1
        · subst h1; exact absurd hfm hg
        · exact h1
      cases hl : List.lookup (pathJoin dirPath g) st.fs.files with
      | none =>
        simp only [readAllGo, readJSONFile, hl, ih ⟨f, hfr, hfm⟩]
      | some c =>
        cases c with
        | malformed => exact absurd hl hg
        | wellFormed v =>
          simp only [readAllGo, readJSONFile, hl, ih ⟨f, hfr, hfm⟩]

/-- when every listed file holds well-formed non-`null` content, the
`readAll` mapping has exactly one entry per listed file. -/
theorem filterMap_readEntry_length (st : DBState) (dirPath : String)
    (L : List String)
    (h : ∀ f ∈ L, ∃ v, List.lookup (pathJoin dirPath f) st.fs.files
        = some (.wellFormed v) ∧ isNull v = false) :
    (L.filterMap (readEntry st dirPath)).length = L.length := by
  induction L with
  | nil => rfl
  | cons f rest ih =>
    obtain ⟨v, hl, hv⟩ := h f (List.mem_cons_self f rest)
    simp only [List.filterMap_cons, readEntry, hl, hv, Bool.false_eq_true, if_false,
      List.length_cons]
    exact congrArg (· + 1) (ih (fun g hg => h g (List.mem_cons_of_mem f hg)))

/-- C5 counterexample: a collection holding one readable document and
one file with malformed JSON: `readAll` aborts the whole listing with
the parse error instead of returning the readable entry and omitting
the malformed one. -/
theorem c5_readAll_malformed_counterexample :
    readAll stMal "users" none false = .error DBError.parseError := by
  rfl

/-- C5 (amended): `readAll` on an absent directory yields the empty
mapping; when no `.json` entry has malformed content it resolves with
exactly the entries that read to a non-`null` value; but an entry with
malformed JSON aborts the whole listing with the parse error rather
than being omitted. -/
theorem c5_readAll_spec (st : DBState) (c : String) :
    (st.fs.dirs.contains (getCollectionDir c) = false →
      readAll st c none false = .ok [])
    ∧ (st.fs.dirs.contains (getCollectionDir c) = true →
        (∀ f ∈ jsonEntries st (getCollectionDir c),
          List.lookup (pathJoin (getCollectionDir c) f) st.fs.files
            ≠ some JContent.malformed) →
        readAll st c none false
          = .ok ((jsonEntries st (getCollectionDir c)).filterMap
              (readEntry st (getCollectionDir c))))
    ∧ (st.fs.dirs.contains (getCollectionDir c) = true →
        (∃ f ∈ jsonEntries st (getCollectionDir c),
          List.lookup (pathJoin (getCollectionDir c) f) st.fs.files
            = some JContent.malformed) →
        readAll st c none false = .error DBError.parseError) := by
  refine ⟨fun h => ?_, fun hd h => ?_, fun hd h => ?_⟩
  · unfold readAll
    rw [if_neg (by simpa using h)]
  · unfold readAll
    rw [if_pos hd]
    exact readAllGo_ok_of_no_malformed st (getCollectionDir c) _ h
  · unfold readAll
    rw [if_pos hd]
    exact readAllGo_error_of_malformed st (getCollectionDir c) _ h

/-- C5 witness: the amended theorem applied to an absent collection, to
an all-well-formed collection, and to a collection with a malformed
entry. -/
theorem c5_readAll_spec_witness :
    readAll st0 "users" none false = .ok []
    ∧ readAll stGood "users" none false
      = .ok ((jsonEntries stGood (getCollectionDir "users")).filterMap
          (readEntry stGood (getCollectionDir "users")))
    ∧ readAll stMal "users" none false = .error DBError.parseError := by
  refine ⟨(c5_readAll_spec st0 "users").1 rfl, ?_, ?_⟩
  · refine (c5_readAll_spec stGood "users").2.1 rfl (fun f hf => ?_)
    rw [show jsonEntries stGood (getCollectionDir "users") = ["1.json"] from rfl] at hf
    simp only [List.mem_singleton] at hf
    subst hf
    intro hcc
    rw [show List.lookup (pathJoin (getCollectionDir "users") "1.json") stGood.fs.files
        = some (JContent.wellFormed (JValue.num 5)) from rfl] at hcc
    simp at hcc
  · refine (c5_readAll_spec stMal "users").2.2 rfl ⟨"b.json", ?_, rfl⟩
    rw [show jsonEntries stMal (getCollectionDir "users") = ["a.json", "b.json"] from rfl]
    exact List.mem_cons_of_mem _ (List.mem_cons_self _ _)

/-- dropping at least one listed element makes a filtered mapping
strictly shorter than its listing. -/
theorem length_filterMap_lt_of_mem_none {α β : Type} (g : α → Option β) :
    ∀ (L : List α) (f : α), f ∈ L → g f = none →
      (L.filterMap g).length < L.length := by
  intro L
  induction L with
  | nil => intro f hf _; exact absurd hf (List.not_mem_nil f)
  | cons a rest ih =>
    intro f hf hg
    rcases List.mem_cons.mp hf with h1 | h1
    · subst h1
      rw [List.filterMap_cons_none hg]
      exact Nat.lt_succ_of_le (List.length_filterMap_le g rest)
    · cases hga : g a with
      | none =>
        rw [List.filterMap_cons_none hga]
        exact Nat.lt_succ_of_lt (ih f h1 hg)
      | some b =>
        rw [List.filterMap_cons_some hga]
        simpa using Nat.succ_lt_succ (ih f h1 hg)

/-- C8 counterexample: a collection holding exactly one file whose
content is the JSON literal `null`: `count` reports `1` while the
mapping `readAll` returns is empty, so `count` is not the cardinality
of `readAll`. -/
theorem c8_count_counterexample :
    count stNull "users" = 1 ∧ readAll stNull "users" none false = .ok [] := by
  exact ⟨rfl, rfl⟩

/-- C8 (amended): `count` returns the number of `.json` directory
entries (`0` when the directory is absent); this equals the cardinality
of the `readAll` mapping when every `.json` entry reads to a non-`null`
value (third conjunct), and strictly exceeds it when some `.json` entry
is unreadable or holds `null` — `readEntry` of it is `none` — (fourth
conjunct), so the equality holds only in the former case. -/
theorem c8_count_spec (st : DBState) (c : String) :
    (st.fs.dirs.contains (getCollectionDir c) = false → count st c = 0)
    ∧ (st.fs.dirs.contains (getCollectionDir c) = true →
        count st c = (jsonEntries st (getCollectionDir c)).length)
    ∧ ((∀ f ∈ jsonEntries st (getCollectionDir c), ∃ v,
          List.lookup (pathJoin (getCollectionDir c) f) st.fs.files
            = some (.wellFormed v) ∧ isNull v = false) →
        isOkRes (readAll st c none false) = true
        ∧ count st c = okLength (readAll st c none false))
    ∧ (st.fs.dirs.contains (getCollectionDir c) = true →
        (∃ f ∈ jsonEntries st (getCollectionDir c),
          readEntry st (getCollectionDir c) f = none) →
        okLength (readAll st c none false) < count st c) := by
  refine ⟨fun h => ?_, fun h => ?_, fun hwf => ?_, fun hd hex => ?_⟩
  · unfold count
    rw [if_neg (by simpa using h)]
  · unfold count
    rw [if_pos h]
  · by_cases hd : st.fs.dirs.contains (getCollectionDir c) = true
    · have hok := readAllGo_ok_of_no_malformed st (getCollectionDir c)
        (jsonEntries st (getCollectionDir c))
        (fun f hf => by obtain ⟨v, hl, _⟩ := hwf f hf; simp [hl])
      have hlen := filterMap_readEntry_length st (getCollectionDir c)
        (jsonEntries st (getCollectionDir c)) hwf
      unfold readAll count
      rw [if_pos hd, if_pos hd, hok]
      exact ⟨rfl, hlen.symm⟩
    · have hd' : st.fs.dirs.contains (getCollectionDir c) = false := by
        simpa using hd
      unfold readAll count
      rw [if_neg (by simpa using hd'), if_neg (by simpa using hd')]
      exact ⟨rfl, rfl⟩
  · obtain ⟨f, hf, hfe⟩ := hex
    by_cases hmal : ∃ g ∈ jsonEntries st (getCollectionDir c),
        List.lookup (pathJoin (getCollectionDir c) g) st.fs.files
          = some JContent.malformed
    · have herr := readAllGo_error_of_malformed st (getCollectionDir c)
        (jsonEntries st (getCollectionDir c)) hmal
      unfold readAll count
      rw [if_pos hd, if_pos hd, herr]
      simp only [okLength]
      exact List.length_pos.mpr (List.ne_nil_of_mem hf)
    · push_neg at hmal
      have hok := readAllGo_ok_of_no_malformed st (getCollectionDir c)
        (jsonEntries st (getCollectionDir c)) hmal
      unfold readAll count
      rw [if_pos hd, if_pos hd, hok]
      simp only [okLength]
      exact length_filterMap_lt_of_mem_none (readEntry st (getCollectionDir c))
        (jsonEntries st (getCollectionDir c)) f hf hfe

/-- C8 witness: the amended theorem applied to a collection with one
readable non-`null` document (equality case) and to a collection whose
only entry holds `null` (strict-excess case). -/
theorem c8_count_spec_witness :
    (isOkRes (readAll stGood "users" none false) = true
      ∧ count stGood "users" = okLength (readAll stGood "users" none false))
    ∧ okLength (readAll stNull "users" none false) < count stNull "users" := by
  constructor
  · refine (c8_count_spec stGood "users").2.2.1 (fun f hf => ?_)
    rw [show jsonEntries stGood (getCollectionDir "users") = ["1.json"] from rfl] at hf
    simp only [List.mem_singleton] at hf
    subst hf
    exact ⟨JValue.num 5, rfl, rfl⟩
  · refine (c8_count_spec stNull "users").2.2.2 rfl ⟨"1.json", ?_, rfl⟩
    rw [show jsonEntries stNull (getCollectionDir "users") = ["1.json"] from rfl]
    exact List.mem_singleton.mpr rfl

/-- a name with the `.json` extension is its basename with `.json`
appended back. -/
theorem basename_append_ext (f : String) (h : hasJsonExt f = true) :
    basenameNoJson f ++ ".json" = f := by
  have h' : f.toList.drop (f.toList.length - 5) = ".json".toList :=
    of_decide_eq_true h
  apply String.ext
  rw [String.data_append]
  show f.data.take (f.data.length - 5) ++ ".json".data = f.data
  have h'' : f.data.drop (f.data.length - 5) = ".json".data := h'
  rw [← h'']
  exact List.take_append_drop _ _

/-- a path whose name relative to `d` is `f` is the join of `d` and
`f`. -/
theorem childNameOf_eq (d p f : String) (h : childNameOf d p = some f) :
    p = pathJoin d f := by
  unfold childNameOf at h
  split at h
  case isTrue hcond =>
    obtain ⟨h1, _h2, _h3⟩ := hcond
    injection h with h4
    subst h4
    apply String.ext
    unfold pathJoin
    rw [String.data_append, String.data_append]
    show p.data = d.data ++ "/".data ++ p.data.drop (d.toList ++ ['/']).length
    conv_lhs => rw [← List.take_append_drop ((d.toList ++ ['/']).length) p.data]
    rw [show (p.toList.take ((d.toList ++ ['/']).length) : List Char)
        = p.data.take ((d.toList ++ ['/']).length) from rfl] at h1
    rw [h1]
    rfl
  case isFalse => exact Option.noConfusion h

/-- in an association list with no duplicate keys, lookup of a present
pair's key returns exactly that pair's value. -/
theorem lookup_eq_of_mem_nodup {β : Type} (l : List (String × β)) (k : String) (c : β)
    (hm : (k, c) ∈ l) (hn : (l.map Prod.fst).Nodup) :
    List.lookup k l = some c := by
  induction l with
  | nil => exact absurd hm (List.not_mem_nil _)
  | cons p rest ih =>
    obtain ⟨k', c'⟩ := p
    rcases List.mem_cons.mp hm with h1 | h1
    · obtain ⟨hk, hc⟩ := Prod.mk.injEq .. ▸ h1
      subst hk; subst hc
      simp [List.lookup]
    · have hk : k ≠ k' := by
        intro he
        subst he
        have hmem : k ∈ rest.map Prod.fst := List.mem_map_of_mem Prod.fst h1
        exact (List.nodup_cons.mp hn).1 hmem
      have hbeq : (k == k') = false := beq_eq_false_iff_ne.mpr hk
      simp only [List.lookup, hbeq]
      exact ih h1 (List.nodup_cons.mp hn).2

/-- every pair the `readAll` loop produces comes from a listed file
whose basename is the pair's key and whose read value is the pair's
non-`null` value. -/
theorem mem_readAllGo (st : DBState) (dirPath : String) :
    ∀ (L : List String) (m : List (String × JValue)) (k : String) (v : JValue),
      readAllGo st dirPath none false L = .ok m → (k, v) ∈ m →
      ∃ f ∈ L, basenameNoJson f = k
        ∧ readJSONFile st (pathJoin dirPath f) none false = .ok v
        ∧ isNull v = false := by
  intro L
  induction L with
  | nil =>
    intro m k v hok hm
    simp only [readAllGo] at hok
    injection hok with h
    subst h
    exact absurd hm (List.not_mem_nil _)
  | cons f rest ih =>
    intro m k v hok hm
    simp only [readAllGo] at hok
    cases hr : readJSONFile st (pathJoin dirPath f) none false with
    | error e => rw [hr] at hok; exact Except.noConfusion hok
    | ok data =>
      rw [hr] at hok
      cases ht : readAllGo st dirPath none false rest with
      | error e => rw [ht] at hok; exact Except.noConfusion hok
      | ok tail =>
        rw [ht] at hok
        dsimp only at hok
        by_cases hd : isNull data = true
        · rw [if_pos hd] at hok
          injection hok with h
          subst h
          obtain ⟨g, hg, h2⟩ := ih tail k v ht hm
          exact ⟨g, List.mem_cons_of_mem f hg, h2⟩
        · rw [if_neg hd] at hok
          injection hok with h
          subst h
          rcases List.mem_cons.mp hm with h1 | h1
          · obtain ⟨hk, hv⟩ := Prod.mk.injEq .. ▸ h1
            subst hk; subst hv
            exact ⟨f, List.mem_cons_self f rest, rfl, hr,
              Bool.not_eq_true _ ▸ hd⟩
          · obtain ⟨g, hg, h2⟩ := ih tail k v ht h1
            exact ⟨g, List.mem_cons_of_mem f hg, h2⟩

/-- every listed `.json` entry names an existing file directly inside
the directory. -/
theorem mem_jsonEntries (st : DBState) (dirPath f : String)
    (h : f ∈ jsonEntries st dirPath) :
    hasJsonExt f = true ∧ ∃ cont, (pathJoin dirPath f, cont) ∈ st.fs.files := by
  unfold jsonEntries at h
  obtain ⟨pc, hpc, hf⟩ := List.mem_filterMap.mp h
  split at hf
  case h_1 g heq =>
    split at hf
    case isTrue hext =>
      injection hf with hgf
      subst hgf
      have hp := childNameOf_eq dirPath pc.1 g heq
      exact ⟨hext, pc.2, hp ▸ hpc⟩
    case isFalse => exact Option.noConfusion hf
  case h_2 => exact Option.noConfusion hf

/-- C10: a stored file whose JSON content is the literal `null` is
indistinguishable from an absent document: `read` returns `null` for
it, and `readAll` omits its id from the returned mapping, even though
the file exists. -/
theorem c10_null_indistinguishable (st : DBState) (c i : String)
    (hl : List.lookup (filePathOf c i) st.fs.files
      = some (JContent.wellFormed JValue.null))
    (hn : (st.fs.files.map Prod.fst).Nodup) :
    read st c i none false = .ok JValue.null
    ∧ ∀ (m : List (String × JValue)) (v : JValue),
        readAll st c none false = .ok m → (i, v) ∉ m := by
  constructor
  · simp only [read, readJSONFile, hl]
  · intro m v hok hm
    by_cases hd : st.fs.dirs.contains (getCollectionDir c) = true
    · unfold readAll at hok
      rw [if_pos hd] at hok
      obtain ⟨f, hfmem, hbase, hread, hnonnull⟩ :=
        mem_readAllGo st (getCollectionDir c) _ m i v hok hm
      obtain ⟨hext, cont, hcont⟩ := mem_jsonEntries st (getCollectionDir c) f hfmem
      have hf : f = i ++ ".json" := by
        rw [← hbase, basename_append_ext f hext]
      have hpath : pathJoin (getCollectionDir c) f = filePathOf c i := by
        rw [hf]; rfl
      have hcont' : List.lookup (pathJoin (getCollectionDir c) f) st.fs.files
          = some cont := lookup_eq_of_mem_nodup _ _ _ hcont hn
      rw [hpath, hl] at hcont'
      injection hcont' with hc
      rw [hpath] at hread
      simp only [readJSONFile, hl] at hread
      injection hread with hv
      rw [← hv] at hnonnull
      simp [isNull] at hnonnull
    · have hd' : st.fs.dirs.contains (getCollectionDir c) = false := by
        simpa using hd
      unfold readAll at hok
      rw [if_neg (by simpa using hd')] at hok
      injection hok with h
      subst h
      exact absurd hm (List.not_mem_nil _)

/-- C10 witness: the theorem applied to a collection holding exactly one
file whose content is the JSON literal `null`. -/
theorem c10_null_indistinguishable_witness :
    read stNull "users" "1" none false = .ok JValue.null
    ∧ ("1", JValue.num 0) ∉ ([] : List (String × JValue)) := by
  constructor
  · exact (c10_null_indistinguishable stNull "users" "1" rfl (by decide)).1
  · exact (c10_null_indistinguishable stNull "users" "1" rfl (by decide)).2
      [] (JValue.num 0) rfl

end JsonDB
